import Mathlib

/-!
Verification development for the GPX anonymizer (src/main.py).

The numerical core of the program consists of:
* `calculate_distance` (src/main.py lines 54-66): Haversine great-circle
  distance in kilometres, Earth radius R = 6371 km;
* the per-leg bearing computation (lines 101-107);
* the destination-point ("direct geodesic") computation (lines 119-143);
* the `anonymize_gpx` orchestrator (lines 68-179) which validates the parsed
  GPX structure, measures every leg of the first segment of the first track,
  and rebuilds the track from the origin (0, 0) along the measured legs.

Python floats are modelled by exact real numbers; `math.sin`, `math.cos`,
`math.asin`, `math.atan2`, `math.sqrt`, `math.radians`, `math.degrees`
become their exact counterparts on `ℝ`.  `math.atan2` is not in Mathlib, so
it is defined below by its usual quadrant case analysis (the convention of
the C library that Python wraps); real numbers carry no signed zero, so the
`-0.0` branches of the C function are not distinguishable, and `atan2 0 0 = 0`
as in Python.  GPX data is modelled structurally: a file is a list of tracks,
a track a list of segments, a segment a list of points; a point holds
latitude, longitude (degrees) and an optional elevation.
-/

open Real

noncomputable section

/-- `math.atan2 y x`: angle of the vector `(x, y)`, in `(-π, π]`.
Quadrant-wise definition matching Python/C `atan2` on real inputs
(real zero behaves like `+0.0`; `atan2 0 0 = 0`). -/
def atan2 (y x : ℝ) : ℝ :=
  if 0 < x then arctan (y / x)
  else if x < 0 then
    (if 0 ≤ y then arctan (y / x) + π else arctan (y / x) - π)
  else
    (if 0 < y then π / 2 else if y < 0 then -(π / 2) else 0)

theorem atan2_zero_zero : atan2 0 0 = 0 := by
  simp [atan2]

theorem atan2_of_pos {x : ℝ} (hx : 0 < x) (y : ℝ) : atan2 y x = arctan (y / x) := by
  simp [atan2, hx]

theorem atan2_zero_of_pos {x : ℝ} (hx : 0 < x) : atan2 0 x = 0 := by
  simp [atan2_of_pos hx]

theorem atan2_zero_of_neg {x : ℝ} (hx : x < 0) : atan2 0 x = π := by
  have hx' : ¬ 0 < x := not_lt.mpr hx.le
  simp [atan2, hx, hx']

theorem atan2_pos_zero {y : ℝ} (hy : 0 < y) : atan2 y 0 = π / 2 := by
  simp [atan2, hy]

/-- `atan2` always lands in the interval `(-π, π]`. -/
theorem atan2_mem_Ioc (y x : ℝ) : atan2 y x ∈ Set.Ioc (-π) π := by
  have hpi : 0 < π := pi_pos
  have h1 : arctan (y / x) < π / 2 := arctan_lt_pi_div_two _
  have h2 : -(π / 2) < arctan (y / x) := neg_pi_div_two_lt_arctan _
  unfold atan2
  split_ifs with hx hx2 hy hy1 hy2
  · constructor <;> nlinarith
  · -- x < 0, 0 ≤ y : arctan (y/x) ≤ 0 since y/x ≤ 0
    have hyx : y / x ≤ 0 := div_nonpos_of_nonneg_of_nonpos hy hx2.le
    have : arctan (y / x) ≤ 0 := by
      have := Real.arctan_strictMono.monotone hyx
      simpa [Real.arctan_zero] using this
    constructor <;> nlinarith
  · -- x < 0, y < 0 : arctan (y/x) > 0
    have hyx : 0 < y / x := div_pos_of_neg_of_neg (lt_of_not_le hy) hx2
    have : 0 < arctan (y / x) := by
      have := Real.arctan_strictMono hyx
      simpa [Real.arctan_zero] using this
    constructor <;> nlinarith
  · constructor <;> nlinarith
  · constructor <;> nlinarith
  · constructor <;> nlinarith

theorem sqrt_one_add_div_sq {x y : ℝ} (hx : x ≠ 0) :
    Real.sqrt (1 + (y / x) ^ 2) = Real.sqrt (x ^ 2 + y ^ 2) / |x| := by
  have h1 : 1 + (y / x) ^ 2 = (x ^ 2 + y ^ 2) / x ^ 2 := by
    field_simp
  rw [h1, Real.sqrt_div (by positivity) (x ^ 2), Real.sqrt_sq_eq_abs]

theorem sq_add_sq_pos_of_ne {x y : ℝ} (h : x ≠ 0 ∨ y ≠ 0) : 0 < x ^ 2 + y ^ 2 := by
  rcases h with h | h
  · have : 0 < x ^ 2 := by positivity
    nlinarith [sq_nonneg y]
  · have : 0 < y ^ 2 := by positivity
    nlinarith [sq_nonneg x]

theorem cos_atan2 {y x : ℝ} (h : x ≠ 0 ∨ y ≠ 0) :
    Real.cos (atan2 y x) = x / Real.sqrt (x ^ 2 + y ^ 2) := by
  have hr : 0 < Real.sqrt (x ^ 2 + y ^ 2) :=
    Real.sqrt_pos.mpr (sq_add_sq_pos_of_ne h)
  unfold atan2
  split_ifs with hx hx2 hy hy1 hy2
  · rw [Real.cos_arctan, sqrt_one_add_div_sq hx.ne.symm, abs_of_pos hx, one_div_div]
  · rw [Real.cos_add, Real.cos_pi, Real.sin_pi, Real.cos_arctan,
      sqrt_one_add_div_sq hx2.ne, abs_of_neg hx2, one_div_div]
    rw [mul_neg_one, mul_zero, sub_zero, neg_div, neg_neg]
  · rw [Real.cos_sub, Real.cos_pi, Real.sin_pi, Real.cos_arctan,
      sqrt_one_add_div_sq hx2.ne, abs_of_neg hx2, one_div_div]
    rw [mul_neg_one, mul_zero, add_zero, neg_div, neg_neg]
  · have hx0 : x = 0 := le_antisymm (not_lt.mp hx) (not_lt.mp hx2)
    simp [hx0, Real.cos_pi_div_two]
  · have hx0 : x = 0 := le_antisymm (not_lt.mp hx) (not_lt.mp hx2)
    simp [hx0]
  · exfalso
    have hx0 : x = 0 := le_antisymm (not_lt.mp hx) (not_lt.mp hx2)
    have hy0 : y = 0 := le_antisymm (not_lt.mp hy1) (not_lt.mp hy2)
    rcases h with h | h
    · exact h hx0
    · exact h hy0

theorem sin_atan2 {y x : ℝ} (h : x ≠ 0 ∨ y ≠ 0) :
    Real.sin (atan2 y x) = y / Real.sqrt (x ^ 2 + y ^ 2) := by
  have hr : 0 < Real.sqrt (x ^ 2 + y ^ 2) :=
    Real.sqrt_pos.mpr (sq_add_sq_pos_of_ne h)
  unfold atan2
  split_ifs with hx hx2 hy hy1 hy2
  · rw [Real.sin_arctan, sqrt_one_add_div_sq hx.ne.symm, abs_of_pos hx,
      div_div_eq_mul_div, div_mul_cancel₀ _ hx.ne.symm]
  · rw [Real.sin_add, Real.cos_pi, Real.sin_pi, Real.sin_arctan,
      sqrt_one_add_div_sq hx2.ne, abs_of_neg hx2]
    rw [mul_neg_one, mul_zero, add_zero, div_div_eq_mul_div, mul_neg,
      div_mul_cancel₀ _ hx2.ne, neg_div, neg_neg]
  · rw [Real.sin_sub, Real.cos_pi, Real.sin_pi, Real.sin_arctan,
      sqrt_one_add_div_sq hx2.ne, abs_of_neg hx2]
    rw [mul_neg_one, mul_zero, sub_zero, div_div_eq_mul_div, mul_neg,
      div_mul_cancel₀ _ hx2.ne, neg_div, neg_neg]
  · have hx0 : x = 0 := le_antisymm (not_lt.mp hx) (not_lt.mp hx2)
    subst hx0
    rw [Real.sin_pi_div_two]
    rw [show (0:ℝ) ^ 2 + y ^ 2 = y ^ 2 by ring, Real.sqrt_sq_eq_abs, abs_of_pos hy1,
      div_self hy1.ne.symm]
  · have hx0 : x = 0 := le_antisymm (not_lt.mp hx) (not_lt.mp hx2)
    subst hx0
    rw [Real.sin_neg, Real.sin_pi_div_two]
    rw [show (0:ℝ) ^ 2 + y ^ 2 = y ^ 2 by ring, Real.sqrt_sq_eq_abs, abs_of_neg hy2]
    rw [div_neg, div_self hy2.ne]
  · exfalso
    have hx0 : x = 0 := le_antisymm (not_lt.mp hx) (not_lt.mp hx2)
    have hy0 : y = 0 := le_antisymm (not_lt.mp hy1) (not_lt.mp hy2)
    rcases h with h | h
    · exact h hx0
    · exact h hy0

/-- Two angles of `(-π, π]` with the same cosine and sine are equal. -/
theorem eq_of_cos_sin_eq {a b : ℝ} (ha : a ∈ Set.Ioc (-π) π) (hb : b ∈ Set.Ioc (-π) π)
    (hc : Real.cos a = Real.cos b) (hs : Real.sin a = Real.sin b) : a = b := by
  have h1 : Real.cos (a - b) = 1 := by
    rw [Real.cos_sub, hc, hs, ← Real.sin_sq_add_cos_sq b]
    ring
  have hpi : 0 < π := pi_pos
  have h2 : a - b = 0 := by
    have hl : -(2 * π) < a - b := by
      rcases ha with ⟨ha1, ha2⟩
      rcases hb with ⟨hb1, hb2⟩
      linarith
    have hr : a - b < 2 * π := by
      rcases ha with ⟨ha1, ha2⟩
      rcases hb with ⟨hb1, hb2⟩
      linarith
    exact (Real.cos_eq_one_iff_of_lt_of_lt hl hr).mp h1
  linarith

/-- `atan2` inverts the polar representation: for `r > 0` and `θ ∈ (-π, π]`,
`atan2 (r sin θ) (r cos θ) = θ`. -/
theorem atan2_r_sin_cos {r θ : ℝ} (hr : 0 < r) (hθ : θ ∈ Set.Ioc (-π) π) :
    atan2 (r * Real.sin θ) (r * Real.cos θ) = θ := by
  have hne : r * Real.cos θ ≠ 0 ∨ r * Real.sin θ ≠ 0 := by
    by_contra hcon
    push_neg at hcon
    obtain ⟨h1, h2⟩ := hcon
    have hc : Real.cos θ = 0 := by
      rcases mul_eq_zero.mp h1 with h | h
      · exact absurd h hr.ne.symm
      · exact h
    have hs : Real.sin θ = 0 := by
      rcases mul_eq_zero.mp h2 with h | h
      · exact absurd h hr.ne.symm
      · exact h
    have := Real.sin_sq_add_cos_sq θ
    rw [hc, hs] at this
    norm_num at this
  have hsq : (r * Real.cos θ) ^ 2 + (r * Real.sin θ) ^ 2 = r ^ 2 := by
    have := Real.sin_sq_add_cos_sq θ
    nlinarith [this]
  have hss : Real.sqrt ((r * Real.cos θ) ^ 2 + (r * Real.sin θ) ^ 2) = r := by
    rw [hsq, Real.sqrt_sq hr.le]
  apply eq_of_cos_sin_eq (atan2_mem_Ioc _ _) hθ
  · rw [cos_atan2 hne, hss]
    field_simp
  · rw [sin_atan2 hne, hss]
    field_simp

/-- `math.radians`: degrees to radians. -/
def rad (x : ℝ) : ℝ := x * (π / 180)

/-- `math.degrees`: radians to degrees. -/
def deg (x : ℝ) : ℝ := x * (180 / π)

theorem rad_deg (x : ℝ) : rad (deg x) = x := by
  unfold rad deg
  field_simp

theorem deg_rad (x : ℝ) : deg (rad x) = x := by
  unfold rad deg
  field_simp

/-- src/main.py lines 54-66, `calculate_distance`: Haversine distance in
kilometres between two points given in degrees (R = 6371 km). -/
def calculate_distance (lat1 lon1 lat2 lon2 : ℝ) : ℝ :=
  let lat1 := rad lat1
  let lon1 := rad lon1
  let lat2 := rad lat2
  let lon2 := rad lon2
  let dlat := lat2 - lat1
  let dlon := lon2 - lon1
  let a := Real.sin (dlat / 2) ^ 2 +
    Real.cos lat1 * Real.cos lat2 * Real.sin (dlon / 2) ^ 2
  let c := 2 * Real.arcsin (Real.sqrt a)
  6371 * c

/-- src/main.py lines 100-106: initial bearing (radians) of the leg from
point 1 to point 2, inputs in degrees. -/
def segBearing (lat1deg lon1deg lat2deg lon2deg : ℝ) : ℝ :=
  let lat1 := rad lat1deg
  let lon1 := rad lon1deg
  let lat2 := rad lat2deg
  let lon2 := rad lon2deg
  let dlon := lon2 - lon1
  let y := Real.sin dlon * Real.cos lat2
  let x := Real.cos lat1 * Real.sin lat2 - Real.sin lat1 * Real.cos lat2 * Real.cos dlon
  atan2 y x

/-- src/main.py lines 123-143: destination point (degrees) from a start point
(degrees), a distance in metres and a bearing in radians, by the spherical
direct geodesic formula with EARTH_RADIUS = 6371000 m. -/
def destPoint (latdeg londeg dist bearing : ℝ) : ℝ × ℝ :=
  let prev_lat := rad latdeg
  let prev_lon := rad londeg
  let angular_dist := dist / 6371000
  let new_lat := Real.arcsin (Real.sin prev_lat * Real.cos angular_dist +
    Real.cos prev_lat * Real.sin angular_dist * Real.cos bearing)
  let new_lon := prev_lon + atan2
    (Real.sin bearing * Real.sin angular_dist * Real.cos prev_lat)
    (Real.cos angular_dist - Real.sin prev_lat * Real.sin new_lat)
  (deg new_lat, deg new_lon)

/-- A GPX track point: latitude and longitude in degrees, optional
elevation in metres (gpxpy points carry `None` when the `<ele>` tag is
absent). -/
structure TrackPoint where
  latitude : ℝ
  longitude : ℝ
  elevation : Option ℝ

/-- src/main.py line 85: `p.elevation if p.elevation else 0` — the elevation
used for the output points; `None` (and `0.0`, which is falsy and maps to the
same value) becomes `0`. -/
def origEle (p : TrackPoint) : ℝ :=
  match p.elevation with
  | none => 0
  | some v => v

/-- src/main.py lines 92-98: kilometre distances of consecutive legs. -/
def segDistances (pts : List TrackPoint) : List ℝ :=
  List.zipWith
    (fun p q => calculate_distance p.latitude p.longitude q.latitude q.longitude)
    pts pts.tail

/-- src/main.py lines 100-107: bearings of consecutive legs. -/
def segBearings (pts : List TrackPoint) : List ℝ :=
  List.zipWith
    (fun p q => segBearing p.latitude p.longitude q.latitude q.longitude)
    pts pts.tail

/-- One iteration of the reconstruction loop (src/main.py lines 119-143):
from the previously reconstructed point (degrees) and the leg metrics
(kilometre distance, bearing), the next reconstructed point.  The loop body
converts the stored kilometre distance to metres (`dist = segment_distances[i]
* 1000`). -/
def anonStep (p : ℝ × ℝ) (m : ℝ × ℝ) : ℝ × ℝ :=
  destPoint p.1 p.2 (m.1 * 1000) m.2

/-- The reconstructed coordinate sequence: point 0 is pinned to `(0, 0)`
(src/main.py lines 112-114) and each later point is obtained from its
predecessor by `anonStep` — the imperative loop is a left scan. -/
def anonCoords (pts : List TrackPoint) : List (ℝ × ℝ) :=
  List.scanl anonStep (0, 0) ((segDistances pts).zip (segBearings pts))

/-- The full anonymized point list produced by src/main.py lines 84-145:
point 0 keeps its original elevation (only `latitude` and `longitude` are
assigned at lines 113-114); every later point gets the reconstructed
coordinates and the elevation recorded in `original_points` (line 145). -/
def anonymizePoints (pts : List TrackPoint) : List TrackPoint :=
  match pts with
  | [] => []
  | p0 :: rest =>
    { latitude := 0, longitude := 0, elevation := p0.elevation } ::
      (((anonCoords pts).tail.zip rest).map
        (fun cq => { latitude := cq.1.1, longitude := cq.1.2,
                     elevation := some (origEle cq.2) }))

/-- The three `ValueError`s raised by src/main.py lines 73-82, in order:
"No tracks found in GPX file", "No segments found in track",
"No points found in segment". -/
inductive GpxError where
  | noTracks : GpxError
  | noSegments : GpxError
  | noPoints : GpxError
deriving DecidableEq

/-- A `<trkseg>` element: an ordered list of track points. -/
structure GpxSegment where
  points : List TrackPoint

/-- A `<trk>` element: an ordered list of segments. -/
structure GpxTrack where
  segments : List GpxSegment

/-- A parsed GPX document: an ordered list of tracks. -/
structure Gpx where
  tracks : List GpxTrack

/-- src/main.py lines 68-175, `anonymize_gpx` (after parsing): validate the
structure, measure the legs of the first segment of the first track, rebuild
that segment from the origin, and return the serialized document together
with the original and recomputed total distances in kilometres.  The
in-place mutation of `segment.points` is modelled as a functional update of
the first segment of the first track; all other tracks and segments are
serialized unchanged by `gpx.to_xml()`. -/
def anonymize_gpx (g : Gpx) : Except GpxError (Gpx × ℝ × ℝ) :=
  match g.tracks with
  | [] => Except.error GpxError.noTracks
  | t :: _ =>
    match t.segments with
    | [] => Except.error GpxError.noSegments
    | s :: _ =>
      match s.points with
      | [] => Except.error GpxError.noPoints
      | p :: ps =>
        let newPts := anonymizePoints (p :: ps)
        let original_distance := (segDistances (p :: ps)).sum
        let anonymized_distances := (segDistances newPts).map (fun d => d * 1000)
        let anonymized_distance := (anonymized_distances.map (fun d => d / 1000)).sum
        Except.ok
          ({ tracks := g.tracks.modifyHead (fun t0 =>
              { segments := t0.segments.modifyHead (fun _s0 =>
                  { points := newPts }) }) },
            original_distance, anonymized_distance)

/-! ### Radian-level forms of the three geometric formulas

The source functions convert degrees to radians and back; the identities are
proved on their radian cores and transported through `rad_deg`/`deg_rad`. -/

/-- The Haversine intermediate `a` of src/main.py line 62, radian inputs. -/
def havA (φ1 l1 φ2 l2 : ℝ) : ℝ :=
  Real.sin ((φ2 - φ1) / 2) ^ 2 +
    Real.cos φ1 * Real.cos φ2 * Real.sin ((l2 - l1) / 2) ^ 2

/-- The Haversine central angle `c = 2 asin (sqrt a)` of line 63. -/
def havCentral (φ1 l1 φ2 l2 : ℝ) : ℝ :=
  2 * Real.arcsin (Real.sqrt (havA φ1 l1 φ2 l2))

/-- Spherical-law-of-cosines form of the cosine of the central angle. -/
def sphCos (φ1 l1 φ2 l2 : ℝ) : ℝ :=
  Real.sin φ1 * Real.sin φ2 + Real.cos φ1 * Real.cos φ2 * Real.cos (l2 - l1)

/-- Bearing formula of lines 104-106, radian inputs. -/
def bearingR (φ1 l1 φ2 l2 : ℝ) : ℝ :=
  atan2 (Real.sin (l2 - l1) * Real.cos φ2)
    (Real.cos φ1 * Real.sin φ2 - Real.sin φ1 * Real.cos φ2 * Real.cos (l2 - l1))

/-- Destination latitude of lines 131-134, radian inputs. -/
def destLatR (φ δ θ : ℝ) : ℝ :=
  Real.arcsin (Real.sin φ * Real.cos δ + Real.cos φ * Real.sin δ * Real.cos θ)

/-- Destination longitude of lines 136-139, radian inputs. -/
def destLonR (φ lon δ θ : ℝ) : ℝ :=
  lon + atan2 (Real.sin θ * Real.sin δ * Real.cos φ)
    (Real.cos δ - Real.sin φ * Real.sin (destLatR φ δ θ))

theorem calculate_distance_eq (lat1 lon1 lat2 lon2 : ℝ) :
    calculate_distance lat1 lon1 lat2 lon2 =
      6371 * havCentral (rad lat1) (rad lon1) (rad lat2) (rad lon2) := by
  unfold calculate_distance havCentral havA
  ring

theorem segBearing_eq (lat1 lon1 lat2 lon2 : ℝ) :
    segBearing lat1 lon1 lat2 lon2 =
      bearingR (rad lat1) (rad lon1) (rad lat2) (rad lon2) := by
  unfold segBearing bearingR
  rfl

theorem destPoint_eq (lat lon dist θ : ℝ) :
    destPoint lat lon dist θ =
      (deg (destLatR (rad lat) (dist / 6371000) θ),
        deg (destLonR (rad lat) (rad lon) (dist / 6371000) θ)) := by
  unfold destPoint destLatR destLonR
  rfl

/-- The Haversine `a` equals `(1 - sphCos)/2` — pure trigonometric algebra. -/
theorem havA_eq_sphCos (φ1 l1 φ2 l2 : ℝ) :
    havA φ1 l1 φ2 l2 = (1 - sphCos φ1 l1 φ2 l2) / 2 := by
  unfold havA sphCos
  rw [Real.sin_sq_eq_half_sub, Real.sin_sq_eq_half_sub]
  rw [show 2 * ((φ2 - φ1) / 2) = φ2 - φ1 by ring,
    show 2 * ((l2 - l1) / 2) = l2 - l1 by ring]
  rw [Real.cos_sub]
  ring

/-- `sphCos` is always in `[-1, 1]`. -/
theorem sphCos_mem (φ1 l1 φ2 l2 : ℝ) : sphCos φ1 l1 φ2 l2 ∈ Set.Icc (-1 : ℝ) 1 := by
  unfold sphCos
  have h1 := Real.sin_sq_add_cos_sq φ1
  have h2 := Real.sin_sq_add_cos_sq φ2
  have h3 := Real.neg_one_le_cos (l2 - l1)
  have h4 := Real.cos_le_one (l2 - l1)
  constructor
  · nlinarith [sq_nonneg (Real.sin φ1 + Real.sin φ2), sq_nonneg (Real.cos φ1 + Real.cos φ2),
      sq_nonneg (Real.cos φ1 - Real.cos φ2), sq_nonneg (Real.cos φ1 * Real.cos φ2)]
  · nlinarith [sq_nonneg (Real.sin φ1 - Real.sin φ2), sq_nonneg (Real.cos φ1 - Real.cos φ2),
      sq_nonneg (Real.cos φ1 + Real.cos φ2), sq_nonneg (Real.cos φ1 * Real.cos φ2)]

/-- The unclamped Haversine `a` of the source always lies in `[0, 1]` in exact
real arithmetic, for ALL real inputs. -/
theorem havA_mem (φ1 l1 φ2 l2 : ℝ) : havA φ1 l1 φ2 l2 ∈ Set.Icc (0 : ℝ) 1 := by
  rw [havA_eq_sphCos]
  obtain ⟨h1, h2⟩ := sphCos_mem φ1 l1 φ2 l2
  constructor <;> [linarith; linarith]

/-- The Haversine central angle is always in `[0, π]`. -/
theorem havCentral_mem (φ1 l1 φ2 l2 : ℝ) :
    havCentral φ1 l1 φ2 l2 ∈ Set.Icc (0 : ℝ) π := by
  unfold havCentral
  have h1 : 0 ≤ Real.arcsin (Real.sqrt (havA φ1 l1 φ2 l2)) :=
    Real.arcsin_nonneg.mpr (Real.sqrt_nonneg _)
  have h2 : Real.arcsin (Real.sqrt (havA φ1 l1 φ2 l2)) ≤ π / 2 :=
    Real.arcsin_le_pi_div_two _
  constructor <;> [linarith; linarith]

/-- If the spherical cosine of a pair equals `cos δ` with `δ ∈ [0, π]`, the
Haversine computation recovers `δ` exactly. -/
theorem havCentral_eq_of_sphCos {φ1 l1 φ2 l2 δ : ℝ}
    (h : sphCos φ1 l1 φ2 l2 = Real.cos δ) (hδ0 : 0 ≤ δ) (hδπ : δ ≤ π) :
    havCentral φ1 l1 φ2 l2 = δ := by
  have hpi : 0 < π := pi_pos
  have ha : havA φ1 l1 φ2 l2 = Real.sin (δ / 2) ^ 2 := by
    rw [havA_eq_sphCos, h, Real.sin_sq_eq_half_sub,
      show 2 * (δ / 2) = δ by ring]
    ring
  have hs : 0 ≤ Real.sin (δ / 2) :=
    Real.sin_nonneg_of_nonneg_of_le_pi (by linarith) (by linarith)
  unfold havCentral
  rw [ha, Real.sqrt_sq hs, Real.arcsin_sin (by linarith) (by linarith)]
  ring

/-- Algebraic identity: `1 - s²` for the destination-latitude sine `s`
decomposes as a sum of squares (so `|s| ≤ 1` always). -/
theorem dest_one_sub_s_sq (φ δ θ : ℝ) :
    1 - (Real.sin φ * Real.cos δ + Real.cos φ * Real.sin δ * Real.cos θ) ^ 2 =
      (Real.sin φ * Real.sin δ * Real.cos θ - Real.cos φ * Real.cos δ) ^ 2 +
        Real.sin δ ^ 2 * Real.sin θ ^ 2 := by
  linear_combination
    (-(Real.cos δ ^ 2 + Real.sin δ ^ 2 * Real.cos θ ^ 2)) * Real.sin_sq_add_cos_sq φ +
      (-(Real.sin δ ^ 2)) * Real.sin_sq_add_cos_sq θ +
      (-1 : ℝ) * Real.sin_sq_add_cos_sq δ

/-- Algebraic identity: the squared norm of the `atan2` argument pair of the
destination-longitude formula is `cos² φ · (1 - s²)`. -/
theorem dest_r_sq (φ δ θ : ℝ) :
    (Real.cos δ - Real.sin φ *
        (Real.sin φ * Real.cos δ + Real.cos φ * Real.sin δ * Real.cos θ)) ^ 2 +
      (Real.sin θ * Real.sin δ * Real.cos φ) ^ 2 =
      Real.cos φ ^ 2 *
        (1 - (Real.sin φ * Real.cos δ + Real.cos φ * Real.sin δ * Real.cos θ) ^ 2) := by
  linear_combination
    ((Real.sin φ * Real.cos δ + Real.cos φ * Real.sin δ * Real.cos θ) ^ 2 -
        Real.cos δ ^ 2) * Real.sin_sq_add_cos_sq φ +
      (Real.cos φ ^ 2 * Real.sin δ ^ 2) * Real.sin_sq_add_cos_sq θ +
      (Real.cos φ ^ 2) * Real.sin_sq_add_cos_sq δ

/-- Key inverse identity: for any start latitude with `cos φ ≥ 0`, any
distance `δ` and any bearing `θ`, the spherical cosine between the start and
the computed destination is exactly `cos δ`. -/
theorem sphCos_dest (φ lon δ θ : ℝ) (hφ : 0 ≤ Real.cos φ) :
    sphCos φ lon (destLatR φ δ θ) (destLonR φ lon δ θ) = Real.cos δ := by
  unfold sphCos destLonR destLatR
  set s := Real.sin φ * Real.cos δ + Real.cos φ * Real.sin δ * Real.cos θ with hsdef
  clear_value s
  have hssq : 1 - s ^ 2 =
      (Real.sin φ * Real.sin δ * Real.cos θ - Real.cos φ * Real.cos δ) ^ 2 +
        Real.sin δ ^ 2 * Real.sin θ ^ 2 := by
    rw [hsdef]
    exact dest_one_sub_s_sq φ δ θ
  have h0 : 0 ≤ 1 - s ^ 2 := by
    rw [hssq]
    positivity
  have hsm1 : -1 ≤ s := by nlinarith
  have hsle : s ≤ 1 := by nlinarith
  rw [Real.sin_arcsin hsm1 hsle, Real.cos_arcsin]
  rw [show lon + atan2 (Real.sin θ * Real.sin δ * Real.cos φ)
      (Real.cos δ - Real.sin φ * s) - lon =
      atan2 (Real.sin θ * Real.sin δ * Real.cos φ)
        (Real.cos δ - Real.sin φ * s) by ring]
  have hr2 : (Real.cos δ - Real.sin φ * s) ^ 2 +
      (Real.sin θ * Real.sin δ * Real.cos φ) ^ 2 =
      Real.cos φ ^ 2 * (1 - s ^ 2) := by
    rw [hsdef]
    exact dest_r_sq φ δ θ
  rcases eq_or_lt_of_le hφ with hφ0 | hφpos
  · -- cos φ = 0 : the second summand of sphCos vanishes
    have hb : Real.cos φ = 0 := hφ0.symm
    rw [hb, zero_mul, zero_mul, add_zero]
    linear_combination Real.sin φ * hsdef +
      (Real.sin φ * Real.sin δ * Real.cos θ - Real.cos δ * Real.cos φ) * hb +
      Real.cos δ * Real.sin_sq_add_cos_sq φ
  · rcases lt_or_eq_of_le (by nlinarith : s ^ 2 ≤ 1) with hlt | heq
    · -- main case : the destination is not a pole
      have h1s : 0 < 1 - s ^ 2 := by linarith
      have hxy : (Real.cos δ - Real.sin φ * s ≠ 0) ∨
          (Real.sin θ * Real.sin δ * Real.cos φ ≠ 0) := by
        by_contra hcon
        push_neg at hcon
        obtain ⟨h1, h2⟩ := hcon
        have hzero : (Real.cos δ - Real.sin φ * s) ^ 2 +
            (Real.sin θ * Real.sin δ * Real.cos φ) ^ 2 = 0 := by
          rw [h1, h2]
          ring
        rw [hr2] at hzero
        have hgt : 0 < Real.cos φ ^ 2 * (1 - s ^ 2) :=
          mul_pos (pow_pos hφpos 2) h1s
        linarith
      rw [cos_atan2 hxy, hr2, Real.sqrt_mul (sq_nonneg _), Real.sqrt_sq hφpos.le]
      have hne : Real.cos φ * Real.sqrt (1 - s ^ 2) ≠ 0 :=
        mul_ne_zero hφpos.ne.symm (Real.sqrt_pos.mpr h1s).ne.symm
      rw [← mul_div_assoc, mul_div_cancel_left₀ _ hne]
      ring
    · -- the destination is a pole : `s = ±1`
      rw [show (1 : ℝ) - s ^ 2 = 0 by linarith, Real.sqrt_zero]
      have hz : (Real.sin φ * Real.sin δ * Real.cos θ - Real.cos φ * Real.cos δ) ^ 2 +
          Real.sin δ ^ 2 * Real.sin θ ^ 2 = 0 := by
        rw [← hssq, ← heq]
        ring
      have e1 : Real.sin φ * Real.sin δ * Real.cos θ - Real.cos φ * Real.cos δ = 0 := by
        have hsq : (Real.sin φ * Real.sin δ * Real.cos θ - Real.cos φ * Real.cos δ) ^ 2 = 0 := by
          nlinarith [sq_nonneg (Real.sin δ * Real.sin θ)]
        exact sq_eq_zero_iff.mp hsq
      have hcases : s = 1 ∨ s = -1 := by
        have hfac : (s - 1) * (s + 1) = 0 := by
          linear_combination heq
        rcases mul_eq_zero.mp hfac with h | h
        · left
          linarith
        · right
          linarith
      have P1 := Real.sin_sq_add_cos_sq φ
      rcases hcases with hs1 | hs1
      · have hseq : Real.sin φ * Real.cos δ + Real.cos φ * Real.sin δ * Real.cos θ = 1 := by
          rw [← hsdef, hs1]
        have hkey : Real.cos δ = Real.sin φ := by
          linear_combination (Real.sin φ) * hseq + (-(Real.cos φ)) * e1 + (-(Real.cos δ)) * P1
        rw [hs1, hkey]
        ring
      · have hseq : Real.sin φ * Real.cos δ + Real.cos φ * Real.sin δ * Real.cos θ = -1 := by
          rw [← hsdef, hs1]
        have hkey : Real.cos δ = -Real.sin φ := by
          linear_combination (Real.sin φ) * hseq + (-(Real.cos φ)) * e1 + (-(Real.cos δ)) * P1
        rw [hs1, hkey]
        ring

/-- Key inverse identity for the bearing: for a start strictly between the
poles, a leg with `sin δ > 0` and a bearing `θ ∈ (-π, π]`, the bearing
formula applied to (start, destination) returns exactly `θ`. -/
theorem bearingR_dest (φ lon δ θ : ℝ) (hφ : 0 < Real.cos φ) (hδ : 0 < Real.sin δ)
    (hθ : θ ∈ Set.Ioc (-π) π) :
    bearingR φ lon (destLatR φ δ θ) (destLonR φ lon δ θ) = θ := by
  have hpi : 0 < π := pi_pos
  unfold bearingR destLonR destLatR
  set s := Real.sin φ * Real.cos δ + Real.cos φ * Real.sin δ * Real.cos θ with hsdef
  clear_value s
  have hssq : 1 - s ^ 2 =
      (Real.sin φ * Real.sin δ * Real.cos θ - Real.cos φ * Real.cos δ) ^ 2 +
        Real.sin δ ^ 2 * Real.sin θ ^ 2 := by
    rw [hsdef]
    exact dest_one_sub_s_sq φ δ θ
  have h0 : 0 ≤ 1 - s ^ 2 := by
    rw [hssq]
    positivity
  have hsm1 : -1 ≤ s := by nlinarith
  have hsle : s ≤ 1 := by nlinarith
  rw [Real.sin_arcsin hsm1 hsle, Real.cos_arcsin]
  rw [show lon + atan2 (Real.sin θ * Real.sin δ * Real.cos φ)
      (Real.cos δ - Real.sin φ * s) - lon =
      atan2 (Real.sin θ * Real.sin δ * Real.cos φ)
        (Real.cos δ - Real.sin φ * s) by ring]
  have hr2 : (Real.cos δ - Real.sin φ * s) ^ 2 +
      (Real.sin θ * Real.sin δ * Real.cos φ) ^ 2 =
      Real.cos φ ^ 2 * (1 - s ^ 2) := by
    rw [hsdef]
    exact dest_r_sq φ δ θ
  have P1 := Real.sin_sq_add_cos_sq φ
  have P3 := Real.sin_sq_add_cos_sq θ
  rcases lt_or_eq_of_le (by nlinarith : s ^ 2 ≤ 1) with hlt | heq
  · -- regular case : destination is not a pole
    have h1s : 0 < 1 - s ^ 2 := by linarith
    have hsgt : 0 < Real.sqrt (1 - s ^ 2) := Real.sqrt_pos.mpr h1s
    have hxy : (Real.cos δ - Real.sin φ * s ≠ 0) ∨
        (Real.sin θ * Real.sin δ * Real.cos φ ≠ 0) := by
      by_contra hcon
      push_neg at hcon
      obtain ⟨h1, h2⟩ := hcon
      have hzero : (Real.cos δ - Real.sin φ * s) ^ 2 +
          (Real.sin θ * Real.sin δ * Real.cos φ) ^ 2 = 0 := by
        rw [h1, h2]
        ring
      rw [hr2] at hzero
      have hgt : 0 < Real.cos φ ^ 2 * (1 - s ^ 2) :=
        mul_pos (pow_pos hφ 2) h1s
      linarith
    have hrr : Real.sqrt ((Real.cos δ - Real.sin φ * s) ^ 2 +
        (Real.sin θ * Real.sin δ * Real.cos φ) ^ 2) =
        Real.cos φ * Real.sqrt (1 - s ^ 2) := by
      rw [hr2, Real.sqrt_mul (sq_nonneg _), Real.sqrt_sq hφ.le]
    have hbne : Real.cos φ * Real.sqrt (1 - s ^ 2) ≠ 0 :=
      mul_ne_zero hφ.ne.symm hsgt.ne.symm
    have hy : Real.sin (atan2 (Real.sin θ * Real.sin δ * Real.cos φ)
          (Real.cos δ - Real.sin φ * s)) * Real.sqrt (1 - s ^ 2) =
        Real.sin δ * Real.sin θ := by
      rw [sin_atan2 hxy, hrr]
      rw [div_mul_eq_mul_div, mul_comm (Real.cos φ) (Real.sqrt (1 - s ^ 2)),
        ← div_div, mul_div_assoc, div_self hsgt.ne.symm, mul_one,
        mul_div_assoc, div_self hφ.ne.symm]
      ring
    have hx : Real.cos φ * s - Real.sin φ * Real.sqrt (1 - s ^ 2) *
          Real.cos (atan2 (Real.sin θ * Real.sin δ * Real.cos φ)
            (Real.cos δ - Real.sin φ * s)) =
        Real.sin δ * Real.cos θ := by
      rw [cos_atan2 hxy, hrr]
      rw [show Real.sin φ * Real.sqrt (1 - s ^ 2) *
          ((Real.cos δ - Real.sin φ * s) / (Real.cos φ * Real.sqrt (1 - s ^ 2))) =
          Real.sin φ * ((Real.cos δ - Real.sin φ * s) / Real.cos φ) *
            (Real.sqrt (1 - s ^ 2) / Real.sqrt (1 - s ^ 2)) by ring]
      rw [div_self hsgt.ne.symm, mul_one]
      field_simp
      linear_combination hsdef + s * P1
    rw [hy, hx]
    exact atan2_r_sin_cos hδ hθ
  · -- destination-pole case : `s = ±1` forces `θ = 0` or `θ = π`
    rw [show (1 : ℝ) - s ^ 2 = 0 by linarith, Real.sqrt_zero]
    have hz : (Real.sin φ * Real.sin δ * Real.cos θ - Real.cos φ * Real.cos δ) ^ 2 +
        Real.sin δ ^ 2 * Real.sin θ ^ 2 = 0 := by
      rw [← hssq, ← heq]
      ring
    have e1 : Real.sin φ * Real.sin δ * Real.cos θ - Real.cos φ * Real.cos δ = 0 := by
      have hsq : (Real.sin φ * Real.sin δ * Real.cos θ - Real.cos φ * Real.cos δ) ^ 2 = 0 := by
        nlinarith [sq_nonneg (Real.sin δ * Real.sin θ)]
      exact sq_eq_zero_iff.mp hsq
    have ef : Real.sin θ = 0 := by
      have hd2 : Real.sin δ ^ 2 * Real.sin θ ^ 2 = 0 := by
        nlinarith [sq_nonneg (Real.sin φ * Real.sin δ * Real.cos θ - Real.cos φ * Real.cos δ)]
      have := mul_eq_zero.mp hd2
      rcases this with h | h
      · exact absurd (sq_eq_zero_iff.mp h) hδ.ne.symm
      · exact sq_eq_zero_iff.mp h
    have hcases : s = 1 ∨ s = -1 := by
      have hfac : (s - 1) * (s + 1) = 0 := by
        linear_combination heq
      rcases mul_eq_zero.mp hfac with h | h
      · left
        linarith
      · right
        linarith
    rcases hcases with hs1 | hs1
    · -- s = 1 : the bearing was θ = 0 (due north)
      have hseq : Real.sin φ * Real.cos δ + Real.cos φ * Real.sin δ * Real.cos θ = 1 := by
        rw [← hsdef, hs1]
      have hde : Real.sin δ * Real.cos θ = Real.cos φ := by
        linear_combination Real.cos φ * hseq + Real.sin φ * e1 +
          (-(Real.sin δ * Real.cos θ)) * P1
      have hf2 : Real.sin θ ^ 2 = 0 := by
        rw [ef]
        ring
      have he1 : Real.cos θ = 1 := by
        have hee : (Real.cos θ - 1) * (Real.cos θ + 1) = 0 := by
          linear_combination P3 - hf2
        rcases mul_eq_zero.mp hee with h | h
        · linarith
        · exfalso
          have : Real.cos θ = -1 := by linarith
          rw [this] at hde
          nlinarith
      have hθ0 : θ = 0 := by
        have := (Real.cos_eq_one_iff_of_lt_of_lt
          (by rcases hθ with ⟨h1, h2⟩; linarith)
          (by rcases hθ with ⟨h1, h2⟩; linarith)).mp he1
        linarith
      rw [hs1, hθ0]
      simp only [mul_zero, zero_mul, sub_zero, mul_one]
      exact atan2_zero_of_pos hφ
    · -- s = -1 : the bearing was θ = π (due south)
      have hseq : Real.sin φ * Real.cos δ + Real.cos φ * Real.sin δ * Real.cos θ = -1 := by
        rw [← hsdef, hs1]
      have hde : Real.sin δ * Real.cos θ = -Real.cos φ := by
        linear_combination Real.cos φ * hseq + Real.sin φ * e1 +
          (-(Real.sin δ * Real.cos θ)) * P1
      have hf2 : Real.sin θ ^ 2 = 0 := by
        rw [ef]
        ring
      have he1 : Real.cos θ = -1 := by
        have hee : (Real.cos θ - 1) * (Real.cos θ + 1) = 0 := by
          linear_combination P3 - hf2
        rcases mul_eq_zero.mp hee with h | h
        · exfalso
          have : Real.cos θ = 1 := by linarith
          rw [this] at hde
          nlinarith
        · linarith
      have hθπ : θ = π := by
        have hc : Real.cos (θ - π) = 1 := by
          rw [Real.cos_sub, Real.cos_pi, Real.sin_pi, he1]
          ring
        have := (Real.cos_eq_one_iff_of_lt_of_lt
          (by rcases hθ with ⟨h1, h2⟩; linarith)
          (by rcases hθ with ⟨h1, h2⟩; linarith)).mp hc
        linarith
      rw [hs1, hθπ]
      simp only [mul_zero, zero_mul, sub_zero]
      rw [show Real.cos φ * (-1) = -Real.cos φ by ring]
      exact atan2_zero_of_neg (by linarith)

theorem rad_mem_of_deg {lat : ℝ} (h : lat ∈ Set.Icc (-90 : ℝ) 90) :
    rad lat ∈ Set.Icc (-(π / 2)) (π / 2) := by
  have hpi : 0 < π := pi_pos
  rcases h with ⟨h1, h2⟩
  unfold rad
  constructor
  · nlinarith
  · nlinarith

theorem cos_rad_nonneg {lat : ℝ} (h : lat ∈ Set.Icc (-90 : ℝ) 90) :
    0 ≤ Real.cos (rad lat) :=
  Real.cos_nonneg_of_mem_Icc (rad_mem_of_deg h)

theorem cos_rad_pos {lat : ℝ} (h : |lat| < 90) : 0 < Real.cos (rad lat) := by
  have hpi : 0 < π := pi_pos
  rcases abs_lt.mp h with ⟨h1, h2⟩
  apply Real.cos_pos_of_mem_Ioo
  unfold rad
  constructor
  · nlinarith
  · nlinarith

/-- Universal one-leg distance recovery: for any start point with latitude
in `[-90, 90]`, any bearing, and any distance whose angular version lies in
`[0, π]`, the Haversine distance from the start to the computed destination
is exactly the given distance (in exact arithmetic). -/
theorem calculate_distance_destPoint (lat lon dist θ : ℝ)
    (hlat : lat ∈ Set.Icc (-90 : ℝ) 90) (h0 : 0 ≤ dist) (hπ : dist ≤ π * 6371000) :
    calculate_distance lat lon (destPoint lat lon dist θ).1
      (destPoint lat lon dist θ).2 = dist / 1000 := by
  rw [destPoint_eq, calculate_distance_eq]
  simp only [rad_deg]
  rw [havCentral_eq_of_sphCos (sphCos_dest (rad lat) (rad lon) (dist / 6371000) θ
    (cos_rad_nonneg hlat)) (by positivity) (by rw [div_le_iff₀ (by norm_num : (0:ℝ) < 6371000)]; linarith)]
  ring

/-- One-leg bearing recovery at the degree level: start strictly between the
poles, distance strictly between `0` and half the circumference, bearing in
`(-π, π]`. -/
theorem segBearing_destPoint (lat lon dist θ : ℝ) (hlat : |lat| < 90)
    (h0 : 0 < dist) (hπ : dist < π * 6371000) (hθ : θ ∈ Set.Ioc (-π) π) :
    segBearing lat lon (destPoint lat lon dist θ).1
      (destPoint lat lon dist θ).2 = θ := by
  rw [destPoint_eq, segBearing_eq]
  simp only [rad_deg]
  apply bearingR_dest _ _ _ _ (cos_rad_pos hlat) _ hθ
  apply Real.sin_pos_of_pos_of_lt_pi
  · positivity
  · rw [div_lt_iff₀ (by norm_num : (0:ℝ) < 6371000)]
    linarith

theorem scanl_getElem?_zero {α β : Type} (f : α → β → α) (b : α) (l : List β) :
    (List.scanl f b l)[0]? = some b := by
  cases l <;> simp [List.scanl]

theorem scanl_getElem?_succ {α β : Type} (f : α → β → α) (b : α) (l : List β) (i : ℕ) :
    (List.scanl f b l)[i + 1]? =
      (l[i]?).bind (fun m => ((List.scanl f b l)[i]?).map (fun a => f a m)) := by
  induction l generalizing b i with
  | nil => simp [List.scanl]
  | cons m ms ih =>
    rw [List.scanl_cons]
    cases i with
    | zero =>
      simp [scanl_getElem?_zero]
    | succ n =>
      simp only [List.cons_append, List.nil_append, List.getElem?_cons_succ]
      rw [ih (f b m) n]

theorem scanl_all {α β : Type} {P : α → Prop} (f : α → β → α) (b : α) (l : List β)
    (hb : P b) (hf : ∀ a m, P (f a m)) : ∀ x ∈ List.scanl f b l, P x := by
  induction l generalizing b with
  | nil =>
    intro x hx
    simp [List.scanl] at hx
    rwa [hx]
  | cons m ms ih =>
    intro x hx
    rw [List.scanl_cons] at hx
    rcases List.mem_append.mp hx with h | h
    · rw [List.mem_singleton.mp h]
      exact hb
    · exact ih (f b m) (hf b m) x h

theorem length_segDistances (pts : List TrackPoint) :
    (segDistances pts).length = pts.length - 1 := by
  unfold segDistances
  rw [List.length_zipWith, List.length_tail]
  exact min_eq_right (Nat.sub_le _ _)

theorem length_segBearings (pts : List TrackPoint) :
    (segBearings pts).length = pts.length - 1 := by
  unfold segBearings
  rw [List.length_zipWith, List.length_tail]
  exact min_eq_right (Nat.sub_le _ _)

theorem length_anonCoords (pts : List TrackPoint) :
    (anonCoords pts).length = (pts.length - 1) + 1 := by
  unfold anonCoords
  rw [List.length_scanl, List.length_zip, length_segDistances, length_segBearings]
  rw [min_self]

theorem length_anonymizePoints (pts : List TrackPoint) :
    (anonymizePoints pts).length = pts.length := by
  cases pts with
  | nil => rfl
  | cons p0 rest =>
    unfold anonymizePoints
    rw [List.length_cons, List.length_map, List.length_zip, List.length_tail,
      length_anonCoords]
    simp [min_eq_right (Nat.sub_le _ _), Nat.succ_sub_one]

theorem segDistances_getElem? (pts : List TrackPoint) (i : ℕ) (p q : TrackPoint)
    (hp : pts[i]? = some p) (hq : pts[i + 1]? = some q) :
    (segDistances pts)[i]? =
      some (calculate_distance p.latitude p.longitude q.latitude q.longitude) := by
  unfold segDistances
  rw [List.getElem?_zipWith', hp, List.getElem?_tail, hq]
  rfl

theorem segBearings_getElem? (pts : List TrackPoint) (i : ℕ) (p q : TrackPoint)
    (hp : pts[i]? = some p) (hq : pts[i + 1]? = some q) :
    (segBearings pts)[i]? =
      some (segBearing p.latitude p.longitude q.latitude q.longitude) := by
  unfold segBearings
  rw [List.getElem?_zipWith', hp, List.getElem?_tail, hq]
  rfl

theorem anonCoords_zero (pts : List TrackPoint) :
    (anonCoords pts)[0]? = some (0, 0) :=
  scanl_getElem?_zero _ _ _

theorem anonCoords_succ (pts : List TrackPoint) (i : ℕ) (c m : ℝ × ℝ)
    (hc : (anonCoords pts)[i]? = some c)
    (hm : ((segDistances pts).zip (segBearings pts))[i]? = some m) :
    (anonCoords pts)[i + 1]? = some (anonStep c m) := by
  unfold anonCoords at hc ⊢
  rw [scanl_getElem?_succ, hm, hc]
  rfl

theorem destPoint_lat_mem (lat lon dist θ : ℝ) :
    (destPoint lat lon dist θ).1 ∈ Set.Icc (-90 : ℝ) 90 := by
  have hpi : 0 < π := pi_pos
  have ht : 0 < 180 / π := by positivity
  have h90 : π / 2 * (180 / π) = 90 := by
    field_simp
    ring
  rw [destPoint_eq]
  dsimp only
  unfold destLatR deg
  obtain ⟨h1, h2⟩ := Real.arcsin_mem_Icc
    (Real.sin (rad lat) * Real.cos (dist / 6371000) +
      Real.cos (rad lat) * Real.sin (dist / 6371000) * Real.cos θ)
  constructor
  · nlinarith
  · nlinarith

theorem anonCoords_lat_mem (pts : List TrackPoint) :
    ∀ c ∈ anonCoords pts, c.1 ∈ Set.Icc (-90 : ℝ) 90 := by
  unfold anonCoords
  apply scanl_all
  · norm_num
  · intro a m
    exact destPoint_lat_mem a.1 a.2 (m.1 * 1000) m.2

theorem calculate_distance_mem (lat1 lon1 lat2 lon2 : ℝ) :
    calculate_distance lat1 lon1 lat2 lon2 ∈ Set.Icc (0 : ℝ) (6371 * π) := by
  rw [calculate_distance_eq]
  obtain ⟨h1, h2⟩ := havCentral_mem (rad lat1) (rad lon1) (rad lat2) (rad lon2)
  constructor
  · nlinarith
  · nlinarith

theorem anonymizePoints_latlon (p0 : TrackPoint) (rest : List TrackPoint) (i : ℕ) :
    ((anonymizePoints (p0 :: rest))[i]?).map (fun p => (p.latitude, p.longitude)) =
      (anonCoords (p0 :: rest))[i]? := by
  cases i with
  | zero =>
    rw [anonCoords_zero]
    unfold anonymizePoints
    rw [List.getElem?_cons_zero]
    rfl
  | succ n =>
    unfold anonymizePoints
    rw [List.getElem?_cons_succ, List.getElem?_map, List.zip_eq_zipWith,
      List.getElem?_zipWith', List.getElem?_tail]
    rcases hc : (anonCoords (p0 :: rest))[n + 1]? with _ | c
    · -- out of range on the coordinate list, hence also on `rest`
      have hlen : (anonCoords (p0 :: rest)).length ≤ n + 1 := by
        rw [← List.getElem?_eq_none_iff]
        exact hc
      rw [length_anonCoords] at hlen
      have : rest[n]? = none := by
        rw [List.getElem?_eq_none_iff]
        simp only [List.length_cons] at hlen ⊢
        omega
      simp [this]
    · rcases hq : rest[n]? with _ | q
      · -- impossible by lengths, but the goal closes by computation anyway
        have hlen : rest.length ≤ n := by
          rw [← List.getElem?_eq_none_iff]
          exact hq
        have hlt : n + 1 < (anonCoords (p0 :: rest)).length := by
          obtain ⟨h, _⟩ := List.getElem?_eq_some_iff.mp hc
          exact h
        rw [length_anonCoords] at hlt
        simp only [List.length_cons] at hlt
        omega
      · simp [hc, hq]

theorem segBearing_mem (lat1 lon1 lat2 lon2 : ℝ) :
    segBearing lat1 lon1 lat2 lon2 ∈ Set.Ioc (-π) π := by
  unfold segBearing
  exact atan2_mem_Ioc _ _

/-- Structure of the reconstruction: each anonymized point after the first is
the destination point computed from its predecessor and the original leg
metrics. -/
theorem anon_leg (pts : List TrackPoint) (i : ℕ) (a b : TrackPoint) (d θ : ℝ)
    (ha : (anonymizePoints pts)[i]? = some a)
    (hb : (anonymizePoints pts)[i + 1]? = some b)
    (hd : (segDistances pts)[i]? = some d)
    (hθ : (segBearings pts)[i]? = some θ) :
    (b.latitude, b.longitude) = destPoint a.latitude a.longitude (d * 1000) θ := by
  cases pts with
  | nil => simp [anonymizePoints] at ha
  | cons p0 rest =>
    have hca : (anonCoords (p0 :: rest))[i]? = some (a.latitude, a.longitude) := by
      rw [← anonymizePoints_latlon, ha]
      rfl
    have hcb : (anonCoords (p0 :: rest))[i + 1]? = some (b.latitude, b.longitude) := by
      rw [← anonymizePoints_latlon, hb]
      rfl
    have hm : ((segDistances (p0 :: rest)).zip (segBearings (p0 :: rest)))[i]? =
        some (d, θ) := by
      rw [List.zip_eq_zipWith, List.getElem?_zipWith', hd, hθ]
      rfl
    have := anonCoords_succ (p0 :: rest) i (a.latitude, a.longitude) (d, θ) hca hm
    rw [hcb] at this
    have heq := Option.some_injective _ this
    rw [heq]
    rfl

/-- The latitude of every anonymized point lies in `[-90, 90]`. -/
theorem anon_lat_mem (pts : List TrackPoint) (i : ℕ) (a : TrackPoint)
    (ha : (anonymizePoints pts)[i]? = some a) :
    a.latitude ∈ Set.Icc (-90 : ℝ) 90 := by
  cases pts with
  | nil => simp [anonymizePoints] at ha
  | cons p0 rest =>
    have hca : (anonCoords (p0 :: rest))[i]? = some (a.latitude, a.longitude) := by
      rw [← anonymizePoints_latlon, ha]
      rfl
    have := anonCoords_lat_mem (p0 :: rest) (a.latitude, a.longitude)
      (List.getElem?_mem hca)
    exact this

/-- Every per-leg distance is in `[0, 6371 π]` kilometres. -/
theorem segDistances_mem (pts : List TrackPoint) (i : ℕ) (d : ℝ)
    (hd : (segDistances pts)[i]? = some d) : d ∈ Set.Icc (0 : ℝ) (6371 * π) := by
  unfold segDistances at hd
  rw [List.getElem?_zipWith'] at hd
  rcases hp : pts[i]? with _ | p
  · rw [hp] at hd
    simp at hd
  · rcases hq : pts.tail[i]? with _ | q
    · rw [hp, hq] at hd
      simp at hd
    · rw [hp, hq] at hd
      simp only [Option.map_some', Option.some_bind] at hd
      rw [← Option.some_injective _ hd]
      exact calculate_distance_mem _ _ _ _


theorem exists_getElem?_some {α : Type} (l : List α) (i : ℕ) (h : i < l.length) :
    ∃ a, l[i]? = some a := by
  rcases hx : l[i]? with _ | a
  · rw [List.getElem?_eq_none_iff] at hx
    omega
  · exact ⟨a, rfl⟩

/-- C1 (amended).  For every input track and every leg index `i`:
(1) the Haversine distance between consecutive anonymized points equals the
original leg distance EXACTLY in real arithmetic (hence certainly within
1 metre, as the claim states) — with no side condition at all; and
(2) the bearing between consecutive anonymized points equals the original
leg bearing whenever the anonymized start of the leg is strictly between the
poles and the leg distance is strictly between `0` and half the Earth
circumference.  (The claim as frozen asserts the bearing half for EVERY leg;
that fails when a reconstructed point sits exactly on a pole — see the
counterexample theorem.) -/
theorem C1_leg_fidelity (pts : List TrackPoint) (i : ℕ) :
    (segDistances (anonymizePoints pts))[i]? = (segDistances pts)[i]? ∧
    (∀ a b d θ,
      (anonymizePoints pts)[i]? = some a →
      (anonymizePoints pts)[i + 1]? = some b →
      (segDistances pts)[i]? = some d →
      (segBearings pts)[i]? = some θ →
      |a.latitude| < 90 → 0 < d → d < 6371 * π →
      (segBearings (anonymizePoints pts))[i]? = some θ) := by
  constructor
  · -- (1) exact distance preservation
    by_cases hi : i + 1 < pts.length
    · have hi0 : i < pts.length := by omega
      obtain ⟨a, ha⟩ := exists_getElem?_some (anonymizePoints pts) i (by
        rw [length_anonymizePoints]; omega)
      obtain ⟨b, hb⟩ := exists_getElem?_some (anonymizePoints pts) (i + 1) (by
        rw [length_anonymizePoints]; omega)
      obtain ⟨p, hp⟩ := exists_getElem?_some pts i hi0
      obtain ⟨q, hq⟩ := exists_getElem?_some pts (i + 1) hi
      have hd := segDistances_getElem? pts i _ _ hp hq
      have hθ := segBearings_getElem? pts i _ _ hp hq
      have hpair := anon_leg pts i _ _ _ _ ha hb hd hθ
      have hAB := segDistances_getElem? (anonymizePoints pts) i _ _ ha hb
      rw [hAB, hd]
      have hblat := congrArg Prod.fst hpair
      have hblon := congrArg Prod.snd hpair
      simp only at hblat hblon
      rw [hblat, hblon]
      have hmem := segDistances_mem pts i _ hd
      rcases hmem with ⟨hd0, hdπ⟩
      have hlatmem := anon_lat_mem pts i _ ha
      rw [calculate_distance_destPoint _ _ _ _ hlatmem (by linarith) (by nlinarith)]
      congr 1
      ring
    · have h1 : (segDistances pts)[i]? = none := by
        rw [List.getElem?_eq_none_iff, length_segDistances]
        omega
      have h2 : (segDistances (anonymizePoints pts))[i]? = none := by
        rw [List.getElem?_eq_none_iff, length_segDistances, length_anonymizePoints]
        omega
      rw [h1, h2]
  · -- (2) bearing preservation away from the poles
    intro a b d θ ha hb hd hθ hlat h0 hπ
    have hpair := anon_leg pts i a b d θ ha hb hd hθ
    have hBanon := segBearings_getElem? (anonymizePoints pts) i a b ha hb
    rw [hBanon]
    -- the original bearing is an `atan2` value, hence lies in `(-π, π]`
    have hθmem : θ ∈ Set.Ioc (-π) π := by
      unfold segBearings at hθ
      rw [List.getElem?_zipWith'] at hθ
      rcases hp : pts[i]? with _ | p
      · rw [hp] at hθ
        simp at hθ
      · rcases hq : pts.tail[i]? with _ | q
        · rw [hp, hq] at hθ
          simp at hθ
        · rw [hp, hq] at hθ
          simp only [Option.map_some', Option.some_bind] at hθ
          rw [← Option.some_injective _ hθ]
          exact segBearing_mem _ _ _ _
    have hblat := congrArg Prod.fst hpair
    have hblon := congrArg Prod.snd hpair
    simp only at hblat hblon
    rw [hblat, hblon]
    rw [segBearing_destPoint a.latitude a.longitude (d * 1000) θ hlat
      (by linarith) (by nlinarith) hθmem]

/-- C2 (amended).  For every start point strictly between the poles, every
distance strictly between `0` and the antipodal distance `π · 6371000` m,
and every bearing in `(-π, π]`, applying the Haversine distance (4.1) and
the bearing formula (4.2) to (start, destination) reproduces the distance
and the bearing exactly.  (The claim as frozen quantifies over EVERY start
point; it fails when the start is a pole — see the counterexample.) -/
theorem C2_inverse (lat lon dist θ : ℝ) (hlat : |lat| < 90)
    (h0 : 0 < dist) (hπ : dist < π * 6371000) (hθ : θ ∈ Set.Ioc (-π) π) :
    calculate_distance lat lon (destPoint lat lon dist θ).1
        (destPoint lat lon dist θ).2 * 1000 = dist ∧
      segBearing lat lon (destPoint lat lon dist θ).1
        (destPoint lat lon dist θ).2 = θ := by
  constructor
  · have hmem : lat ∈ Set.Icc (-90 : ℝ) 90 := by
      rcases abs_lt.mp hlat with ⟨h1, h2⟩
      exact ⟨by linarith, by linarith⟩
    rw [calculate_distance_destPoint lat lon dist θ hmem h0.le hπ.le]
    ring
  · exact segBearing_destPoint lat lon dist θ hlat h0 hπ hθ

/-! ### Special-value evaluation toolkit for the concrete tracks -/

theorem rad_zero : rad 0 = 0 := by
  unfold rad
  ring

theorem rad_90 : rad 90 = π / 2 := by
  unfold rad
  ring

theorem rad_180 : rad 180 = π := by
  unfold rad
  ring

theorem rad_neg90 : rad (-90) = -(π / 2) := by
  unfold rad
  ring

theorem deg_zero : deg 0 = 0 := by
  unfold deg
  ring

theorem deg_add (x y : ℝ) : deg (x + y) = deg x + deg y := by
  unfold deg
  ring

theorem deg_pi_div_two : deg (π / 2) = 90 := by
  unfold deg
  field_simp
  ring

theorem sin_neg_three_pi_div_two : Real.sin (-(3 * π / 2)) = 1 := by
  rw [Real.sin_neg, show (3 : ℝ) * π / 2 = π + π / 2 by ring, Real.sin_add,
    Real.sin_pi, Real.cos_pi, Real.sin_pi_div_two]
  ring

theorem cos_neg_three_pi_div_two : Real.cos (-(3 * π / 2)) = 0 := by
  rw [Real.cos_neg, show (3 : ℝ) * π / 2 = π + π / 2 by ring, Real.cos_add,
    Real.sin_pi, Real.cos_pi, Real.cos_pi_div_two]
  ring

theorem destPoint_equator_east (L D : ℝ) (hD : D / 6371000 = π / 2) :
    destPoint 0 L D (π / 2) = (0, L + 90) := by
  simp only [destPoint]
  rw [hD, rad_zero]
  norm_num [Real.sin_zero, Real.cos_zero, Real.sin_pi_div_two, Real.cos_pi_div_two,
    Real.arcsin_zero]
  rw [atan2_pos_zero one_pos]
  rw [deg_add, deg_rad, deg_pi_div_two, deg_zero]
  norm_num

theorem destPoint_equator_north (D : ℝ) (hD : D / 6371000 = π / 2) :
    destPoint 0 0 D 0 = (90, 0) := by
  simp only [destPoint]
  rw [hD, rad_zero]
  norm_num [Real.sin_zero, Real.cos_zero, Real.sin_pi_div_two, Real.cos_pi_div_two,
    Real.arcsin_one]
  rw [atan2_zero_zero]
  rw [deg_pi_div_two, deg_zero]
  norm_num

theorem destPoint_pole_east (D : ℝ) (hD : D / 6371000 = π / 2) :
    destPoint 90 0 D (π / 2) = (0, 0) := by
  simp only [destPoint]
  rw [hD, rad_zero, rad_90]
  norm_num [Real.sin_zero, Real.cos_zero, Real.sin_pi_div_two, Real.cos_pi_div_two,
    Real.arcsin_zero]
  rw [atan2_zero_zero]
  rw [deg_zero]
  norm_num

theorem calc_dist_of_sphCos {lat1 lon1 lat2 lon2 δ : ℝ}
    (h : sphCos (rad lat1) (rad lon1) (rad lat2) (rad lon2) = Real.cos δ)
    (h0 : 0 ≤ δ) (hπ : δ ≤ π) :
    calculate_distance lat1 lon1 lat2 lon2 = 6371 * δ := by
  rw [calculate_distance_eq, havCentral_eq_of_sphCos h h0 hπ]

theorem dist_00_090 : calculate_distance 0 0 0 90 = 6371 * (π / 2) := by
  refine calc_dist_of_sphCos ?_ (by positivity) (by linarith [pi_pos])
  unfold sphCos
  rw [rad_zero, rad_90]
  norm_num [Real.sin_zero, Real.cos_zero]

theorem dist_090_0180 : calculate_distance 0 90 0 180 = 6371 * (π / 2) := by
  refine calc_dist_of_sphCos ?_ (by positivity) (by linarith [pi_pos])
  unfold sphCos
  rw [rad_zero, rad_90, rad_180]
  rw [show π - π / 2 = π / 2 by ring]
  norm_num [Real.sin_zero, Real.cos_zero]

theorem dist_0180_0neg90 : calculate_distance 0 180 0 (-90) = 6371 * (π / 2) := by
  refine calc_dist_of_sphCos ?_ (by positivity) (by linarith [pi_pos])
  unfold sphCos
  rw [rad_zero, rad_neg90, rad_180]
  rw [show -(π / 2) - π = -(3 * π / 2) by ring, cos_neg_three_pi_div_two]
  norm_num [Real.sin_zero, Real.cos_zero, Real.cos_pi_div_two]

theorem dist_00_900 : calculate_distance 0 0 90 0 = 6371 * (π / 2) := by
  refine calc_dist_of_sphCos ?_ (by positivity) (by linarith [pi_pos])
  unfold sphCos
  rw [rad_zero, rad_90]
  norm_num [Real.sin_zero, Real.cos_zero, Real.sin_pi_div_two, Real.cos_pi_div_two]

theorem dist_900_090 : calculate_distance 90 0 0 90 = 6371 * (π / 2) := by
  refine calc_dist_of_sphCos ?_ (by positivity) (by linarith [pi_pos])
  unfold sphCos
  rw [rad_zero, rad_90]
  norm_num [Real.sin_zero, Real.cos_zero, Real.sin_pi_div_two, Real.cos_pi_div_two]

theorem bear_00_090 : segBearing 0 0 0 90 = π / 2 := by
  unfold segBearing
  rw [rad_zero, rad_90]
  norm_num [Real.sin_zero, Real.cos_zero, Real.sin_pi_div_two]
  rw [atan2_pos_zero one_pos]

theorem bear_00_900 : segBearing 0 0 90 0 = 0 := by
  unfold segBearing
  rw [rad_zero, rad_90]
  norm_num [Real.sin_zero, Real.cos_zero, Real.sin_pi_div_two, Real.cos_pi_div_two]
  rw [atan2_zero_of_pos one_pos]

theorem bear_900_090 : segBearing 90 0 0 90 = π / 2 := by
  unfold segBearing
  rw [rad_zero, rad_90]
  norm_num [Real.sin_zero, Real.cos_zero, Real.sin_pi_div_two, Real.cos_pi_div_two]
  rw [atan2_pos_zero one_pos]

theorem bear_900_000 : segBearing 90 0 0 0 = π := by
  unfold segBearing
  rw [rad_zero, rad_90]
  norm_num [Real.sin_zero, Real.cos_zero, Real.sin_pi_div_two, Real.cos_pi_div_two]
  exact atan2_zero_of_neg (by norm_num)

theorem bear_090_0180 : segBearing 0 90 0 180 = π / 2 := by
  unfold segBearing
  rw [rad_zero, rad_90, rad_180]
  norm_num [Real.sin_zero, Real.cos_zero, Real.sin_pi_sub, Real.sin_pi_div_two]
  rw [atan2_pos_zero one_pos]

theorem sin_shape1 : Real.sin (-(π / 2) - π) = 1 := by
  rw [show -(π / 2) - π = -(3 * π / 2) by ring]
  exact sin_neg_three_pi_div_two

theorem cos_shape1 : Real.cos (-(π / 2) - π) = 0 := by
  rw [show -(π / 2) - π = -(3 * π / 2) by ring]
  exact cos_neg_three_pi_div_two

theorem bear_0180_0neg90 : segBearing 0 180 0 (-90) = π / 2 := by
  unfold segBearing
  rw [rad_zero, rad_neg90, rad_180]
  norm_num [Real.sin_zero, Real.cos_zero, sin_shape1, cos_shape1]
  rw [atan2_pos_zero one_pos]

theorem dist_900_000 : calculate_distance 90 0 0 0 = 6371 * (π / 2) := by
  refine calc_dist_of_sphCos ?_ (by positivity) (by linarith [pi_pos])
  unfold sphCos
  rw [rad_zero, rad_90]
  norm_num [Real.sin_zero, Real.cos_zero, Real.sin_pi_div_two, Real.cos_pi_div_two]

theorem angular_km : 6371 * (π / 2) * 1000 / 6371000 = π / 2 := by
  rw [div_eq_iff (by norm_num : (6371000 : ℝ) ≠ 0)]
  ring

/-! Concrete two-point equator track `[(0,0), (0,90)]` (elevations absent). -/

theorem segD_equator :
    segDistances [⟨0, 0, none⟩, ⟨0, 90, none⟩] = [6371 * (π / 2)] := by
  show [calculate_distance 0 0 0 90] = _
  rw [dist_00_090]

theorem segB_equator :
    segBearings [⟨0, 0, none⟩, ⟨0, 90, none⟩] = [π / 2] := by
  show [segBearing 0 0 0 90] = _
  rw [bear_00_090]

theorem anonC_equator :
    anonCoords [⟨0, 0, none⟩, ⟨0, 90, none⟩] = [(0, 0), (0, 90)] := by
  unfold anonCoords
  rw [segD_equator, segB_equator]
  have h1 : anonStep (0, 0) (6371 * (π / 2), π / 2) = ((0 : ℝ), (90 : ℝ)) := by
    show destPoint 0 0 (6371 * (π / 2) * 1000) (π / 2) = _
    rw [destPoint_equator_east 0 _ angular_km]
    norm_num
  simp only [List.zip_cons_cons, List.zip_nil_right, List.scanl_cons, List.scanl_nil, h1]
  rfl

theorem anonP_equator :
    anonymizePoints [⟨0, 0, none⟩, ⟨0, 90, none⟩] =
      [⟨0, 0, none⟩, ⟨0, 90, some 0⟩] := by
  simp only [anonymizePoints]
  rw [anonC_equator]
  rfl

/-! Concrete pole-crossing track `[(0,0), (90,0), (0,90)]`: the second
original point is the north pole, so the second reconstructed point is the
north pole, where the bearing formula degenerates. -/

theorem segD_pole :
    segDistances [⟨0, 0, none⟩, ⟨90, 0, none⟩, ⟨0, 90, none⟩] =
      [6371 * (π / 2), 6371 * (π / 2)] := by
  show [calculate_distance 0 0 90 0, calculate_distance 90 0 0 90] = _
  rw [dist_00_900, dist_900_090]

theorem segB_pole :
    segBearings [⟨0, 0, none⟩, ⟨90, 0, none⟩, ⟨0, 90, none⟩] = [0, π / 2] := by
  show [segBearing 0 0 90 0, segBearing 90 0 0 90] = _
  rw [bear_00_900, bear_900_090]

theorem anonC_pole :
    anonCoords [⟨0, 0, none⟩, ⟨90, 0, none⟩, ⟨0, 90, none⟩] =
      [(0, 0), (90, 0), (0, 0)] := by
  unfold anonCoords
  rw [segD_pole, segB_pole]
  have h1 : anonStep (0, 0) (6371 * (π / 2), 0) = ((90 : ℝ), (0 : ℝ)) := by
    show destPoint 0 0 (6371 * (π / 2) * 1000) 0 = _
    rw [destPoint_equator_north _ angular_km]
  have h2 : anonStep (90, 0) (6371 * (π / 2), π / 2) = ((0 : ℝ), (0 : ℝ)) := by
    show destPoint 90 0 (6371 * (π / 2) * 1000) (π / 2) = _
    rw [destPoint_pole_east _ angular_km]
  simp only [List.zip_cons_cons, List.zip_nil_right, List.scanl_cons, List.scanl_nil,
    h1, h2]
  rfl

theorem anonP_pole :
    anonymizePoints [⟨0, 0, none⟩, ⟨90, 0, none⟩, ⟨0, 90, none⟩] =
      [⟨0, 0, none⟩, ⟨90, 0, some 0⟩, ⟨0, 0, some 0⟩] := by
  simp only [anonymizePoints]
  rw [anonC_pole]
  rfl

theorem segB_anonPole :
    segBearings [⟨0, 0, none⟩, ⟨90, 0, some 0⟩, ⟨0, 0, some 0⟩] = [0, π] := by
  show [segBearing 0 0 90 0, segBearing 90 0 0 0] = _
  rw [bear_00_900, bear_900_000]

/-! Concrete eastbound equator track `[(0,0), (0,90), (0,180), (0,-90)]`:
every input longitude is within `[-180, 180]`, but the reconstructed
longitudes accumulate to `270`. -/

theorem segD_east :
    segDistances [⟨0, 0, none⟩, ⟨0, 90, none⟩, ⟨0, 180, none⟩, ⟨0, -90, none⟩] =
      [6371 * (π / 2), 6371 * (π / 2), 6371 * (π / 2)] := by
  show [calculate_distance 0 0 0 90, calculate_distance 0 90 0 180,
    calculate_distance 0 180 0 (-90)] = _
  rw [dist_00_090, dist_090_0180, dist_0180_0neg90]

theorem segB_east :
    segBearings [⟨0, 0, none⟩, ⟨0, 90, none⟩, ⟨0, 180, none⟩, ⟨0, -90, none⟩] =
      [π / 2, π / 2, π / 2] := by
  show [segBearing 0 0 0 90, segBearing 0 90 0 180, segBearing 0 180 0 (-90)] = _
  rw [bear_00_090, bear_090_0180, bear_0180_0neg90]

theorem anonC_east :
    anonCoords [⟨0, 0, none⟩, ⟨0, 90, none⟩, ⟨0, 180, none⟩, ⟨0, -90, none⟩] =
      [(0, 0), (0, 90), (0, 180), (0, 270)] := by
  unfold anonCoords
  rw [segD_east, segB_east]
  have h1 : anonStep (0, 0) (6371 * (π / 2), π / 2) = ((0 : ℝ), (90 : ℝ)) := by
    show destPoint 0 0 (6371 * (π / 2) * 1000) (π / 2) = _
    rw [destPoint_equator_east 0 _ angular_km]
    norm_num
  have h2 : anonStep (0, 90) (6371 * (π / 2), π / 2) = ((0 : ℝ), (180 : ℝ)) := by
    show destPoint 0 90 (6371 * (π / 2) * 1000) (π / 2) = _
    rw [destPoint_equator_east 90 _ angular_km]
    norm_num
  have h3 : anonStep (0, 180) (6371 * (π / 2), π / 2) = ((0 : ℝ), (270 : ℝ)) := by
    show destPoint 0 180 (6371 * (π / 2) * 1000) (π / 2) = _
    rw [destPoint_equator_east 180 _ angular_km]
    norm_num
  simp only [List.zip_cons_cons, List.zip_nil_right, List.scanl_cons, List.scanl_nil,
    h1, h2, h3]
  rfl

theorem anonP_east :
    anonymizePoints [⟨0, 0, none⟩, ⟨0, 90, none⟩, ⟨0, 180, none⟩, ⟨0, -90, none⟩] =
      [⟨0, 0, none⟩, ⟨0, 90, some 0⟩, ⟨0, 180, some 0⟩, ⟨0, 270, some 0⟩] := by
  simp only [anonymizePoints]
  rw [anonC_east]
  rfl

theorem atan2_zero_of_nonneg {x : ℝ} (hx : 0 ≤ x) : atan2 0 x = 0 := by
  rcases eq_or_lt_of_le hx with h | h
  · rw [← h]
    exact atan2_zero_zero
  · exact atan2_zero_of_pos h

/-- Distance of a point to itself is `0` (zero-distance identity). -/
theorem calculate_distance_self (lat lon : ℝ) :
    calculate_distance lat lon lat lon = 0 := by
  simp only [calculate_distance, sub_self]
  norm_num [Real.sin_zero, Real.sqrt_zero, Real.arcsin_zero]

/-- Bearing of a point to itself: `atan2 (0, 0) = 0` without error. -/
theorem segBearing_self (lat lon : ℝ) : segBearing lat lon lat lon = 0 := by
  simp only [segBearing, sub_self]
  rw [show Real.sin 0 * Real.cos (rad lat) = 0 by rw [Real.sin_zero]; ring]
  rw [show Real.cos (rad lat) * Real.sin (rad lat) -
      Real.sin (rad lat) * Real.cos (rad lat) * Real.cos 0 = 0 by
    rw [Real.cos_zero]; ring]
  exact atan2_zero_zero

/-- The destination at distance `0` and bearing `0` is the start itself,
provided the start latitude is in `[-90, 90]`. -/
theorem destPoint_zero (lat lon : ℝ) (hlat : lat ∈ Set.Icc (-90 : ℝ) 90) :
    destPoint lat lon 0 0 = (lat, lon) := by
  obtain ⟨hm1, hm2⟩ := rad_mem_of_deg hlat
  simp only [destPoint]
  rw [show (0 : ℝ) / 6371000 = 0 by norm_num]
  rw [Real.cos_zero, Real.sin_zero]
  rw [show Real.sin (rad lat) * 1 + Real.cos (rad lat) * 0 * 1 = Real.sin (rad lat) by ring]
  rw [Real.arcsin_sin hm1 hm2]
  rw [show (0 : ℝ) * 0 * Real.cos (rad lat) = 0 by ring]
  rw [show (1 : ℝ) - Real.sin (rad lat) * Real.sin (rad lat) =
      Real.cos (rad lat) ^ 2 by
    have := Real.sin_sq_add_cos_sq (rad lat)
    nlinarith]
  rw [atan2_zero_of_nonneg (sq_nonneg _), add_zero, deg_rad, deg_rad]

/-- Python `math.asin`: total on `[-1, 1]`, raises `ValueError` (modelled as
`none`) outside. -/
def asinChecked (x : ℝ) : Option ℝ :=
  if -1 ≤ x ∧ x ≤ 1 then some (Real.arcsin x) else none

/-- `calculate_distance` with the partiality of Python `math.asin` made
explicit: exactly the computation of src/main.py lines 54-66, and in
particular with NO clamping of the intermediate `a` before the call
`math.asin(math.sqrt(a))` at line 63. -/
def calculate_distanceChecked (lat1 lon1 lat2 lon2 : ℝ) : Option ℝ :=
  let lat1 := rad lat1
  let lon1 := rad lon1
  let lat2 := rad lat2
  let lon2 := rad lon2
  let dlat := lat2 - lat1
  let dlon := lon2 - lon1
  let a := Real.sin (dlat / 2) ^ 2 +
    Real.cos lat1 * Real.cos lat2 * Real.sin (dlon / 2) ^ 2
  (asinChecked (Real.sqrt a)).map (fun v => 6371 * (2 * v))

/-- C3 counterexample: for the one-point input track with elevation 35, the
output point at index 0 keeps elevation 35 — the code (src/main.py lines
112-114) only reassigns latitude and longitude of point 0, never its
elevation, so the claimed `Anon[0].elevation == 0` is false. -/
theorem C3_counterexample :
    (anonymizePoints [⟨48, 2, some 35⟩]).map TrackPoint.elevation = [some 35] ∧
      (some (35 : ℝ) ≠ some (0 : ℝ)) := by
  constructor
  · rfl
  · simp

/-- C3 (amended): for every index `i ≥ 1` the output elevation equals the
original elevation at the same index with `None` defaulting to `0`; the
output elevation at index 0 is the original first point's elevation,
UNCHANGED (not reset to 0 as the claim states). -/
theorem C3_elevation (pts : List TrackPoint) (i : ℕ) (h : 1 ≤ i) :
    ((anonymizePoints pts)[i]?).map TrackPoint.elevation =
      (pts[i]?).map (fun p => some (origEle p)) ∧
    ((anonymizePoints pts)[0]?).map TrackPoint.elevation =
      (pts[0]?).map TrackPoint.elevation := by
  cases pts with
  | nil =>
    constructor <;> simp [anonymizePoints]
  | cons p0 rest =>
    constructor
    · obtain ⟨n, rfl⟩ : ∃ n, i = n + 1 := ⟨i - 1, by omega⟩
      unfold anonymizePoints
      rw [List.getElem?_cons_succ, List.getElem?_cons_succ, List.getElem?_map,
        List.zip_eq_zipWith, List.getElem?_zipWith', List.getElem?_tail]
      rcases hc : (anonCoords (p0 :: rest))[n + 1]? with _ | c
      · have hlen : (anonCoords (p0 :: rest)).length ≤ n + 1 := by
          rw [← List.getElem?_eq_none_iff]
          exact hc
        rw [length_anonCoords] at hlen
        have hr : rest[n]? = none := by
          rw [List.getElem?_eq_none_iff]
          simp only [List.length_cons] at hlen
          omega
        simp [hr]
      · rcases hq : rest[n]? with _ | q
        · simp [hq]
        · simp [hq]
    · unfold anonymizePoints
      rw [List.getElem?_cons_zero, List.getElem?_cons_zero]
      rfl

/-- C4: for every non-empty input track the first anonymized point is
exactly `(0, 0)`, regardless of the original first point. -/
theorem C4_origin (p0 : TrackPoint) (rest : List TrackPoint) :
    ((anonymizePoints (p0 :: rest))[0]?).map (fun p => (p.latitude, p.longitude)) =
      some (0, 0) := by
  rw [anonymizePoints_latlon, anonCoords_zero]

/-- C5: `anonymize_gpx` signals an error (one of the three distinct
structural `ValueError`s) exactly when the parsed input has no tracks, the
first track has no segments, or the first segment has no points; in every
other case it returns a result, so no partial output is ever produced on a
validation failure. -/
theorem C5_validation (g : Gpx) :
    (∃ e, anonymize_gpx g = Except.error e) ↔
      (g.tracks = [] ∨ ∃ t ts, g.tracks = t :: ts ∧
        (t.segments = [] ∨ ∃ s ss, t.segments = s :: ss ∧ s.points = [])) := by
  rcases g with ⟨tracks⟩
  cases tracks with
  | nil =>
    constructor
    · intro _
      left
      rfl
    · intro _
      exact ⟨GpxError.noTracks, rfl⟩
  | cons t ts =>
    rcases t with ⟨segs⟩
    cases segs with
    | nil =>
      constructor
      · intro _
        right
        exact ⟨⟨[]⟩, ts, rfl, Or.inl rfl⟩
      · intro _
        exact ⟨GpxError.noSegments, rfl⟩
    | cons s ss =>
      rcases s with ⟨ptsl⟩
      cases ptsl with
      | nil =>
        constructor
        · intro _
          right
          exact ⟨⟨⟨[]⟩ :: ss⟩, ts, rfl, Or.inr ⟨⟨[]⟩, ss, rfl, rfl⟩⟩
        · intro _
          exact ⟨GpxError.noPoints, rfl⟩
      | cons p ps =>
        constructor
        · rintro ⟨e, he⟩
          simp [anonymize_gpx] at he
        · rintro (h | ⟨t2, ts2, ht, h2⟩)
          · simp at h
          · obtain ⟨ht2, _⟩ := List.cons_eq_cons.mp ht
            rcases h2 with hseg | ⟨s2, ss2, hs, hp⟩
            · rw [← ht2] at hseg
              simp at hseg
            · rw [← ht2] at hs
              simp only at hs
              obtain ⟨hs2, _⟩ := List.cons_eq_cons.mp hs
              rw [← hs2] at hp
              simp at hp

/-- C6: the source performs NO clamping of the Haversine intermediate `a`
(src/main.py lines 62-63 compute `asin(sqrt(a))` directly).  In exact real
arithmetic the unclamped `a` always lies in `[0, 1]` — for ALL real inputs,
identical and antipodal points included — so the inverse-sine call (modelled
with Python's `math.asin` domain check) never fails.  The clamp asserted by
the claim exists only as a guard against floating-point rounding, and it is
absent from the code. -/
theorem C6_no_domain_error (lat1 lon1 lat2 lon2 : ℝ) :
    (Real.sin ((rad lat2 - rad lat1) / 2) ^ 2 +
      Real.cos (rad lat1) * Real.cos (rad lat2) *
        Real.sin ((rad lon2 - rad lon1) / 2) ^ 2) ∈ Set.Icc (0 : ℝ) 1 ∧
    calculate_distanceChecked lat1 lon1 lat2 lon2 =
      some (calculate_distance lat1 lon1 lat2 lon2) := by
  have hmem := havA_mem (rad lat1) (rad lon1) (rad lat2) (rad lon2)
  unfold havA at hmem
  constructor
  · exact hmem
  · obtain ⟨h0, h1⟩ := hmem
    unfold calculate_distanceChecked calculate_distance asinChecked
    dsimp only
    split_ifs with hcnd
    · rfl
    · exact absurd ⟨le_trans (by norm_num) (Real.sqrt_nonneg _),
        Real.sqrt_le_one.mpr h1⟩ hcnd

/-- C7: a single-point track is anonymized without error into the
single point `(0, 0)` (its elevation kept), and both returned total
distances are `0`. -/
theorem C7_single (p : TrackPoint) :
    anonymize_gpx ⟨[⟨[⟨[p]⟩]⟩]⟩ =
      Except.ok (⟨[⟨[⟨[⟨0, 0, p.elevation⟩]⟩]⟩]⟩, 0, 0) := rfl

/-- C8: only the first segment of the first track is rewritten; every point
of every other segment (same track or other tracks) appears in the output
unchanged. -/
theorem C8_frame (g g2 : Gpx) (d1 d2 : ℝ)
    (h : anonymize_gpx g = Except.ok (g2, d1, d2))
    (i j k : ℕ) (hij : ¬(i = 0 ∧ j = 0)) :
    ((g2.tracks[i]?).bind (fun t => t.segments[j]?)).bind (fun s => s.points[k]?) =
      ((g.tracks[i]?).bind (fun t => t.segments[j]?)).bind (fun s => s.points[k]?) := by
  rcases g with ⟨tracks⟩
  cases tracks with
  | nil => simp [anonymize_gpx] at h
  | cons t ts =>
    rcases t with ⟨segs⟩
    cases segs with
    | nil => simp [anonymize_gpx] at h
    | cons s ss =>
      rcases s with ⟨ptsl⟩
      cases ptsl with
      | nil => simp [anonymize_gpx] at h
      | cons p ps =>
        simp only [anonymize_gpx, Except.ok.injEq, Prod.mk.injEq] at h
        obtain ⟨h1, _, _⟩ := h
        rw [← h1]
        rcases Nat.eq_zero_or_pos i with rfl | hi
        · have hj : j ≠ 0 := fun hj0 => hij ⟨rfl, hj0⟩
          obtain ⟨j1, rfl⟩ : ∃ j1, j = j1 + 1 := ⟨j - 1, by omega⟩
          simp [List.modifyHead_cons]
        · obtain ⟨i1, rfl⟩ : ∃ i1, i = i1 + 1 := ⟨i - 1, by omega⟩
          simp [List.modifyHead_cons]

/-- C9: each reconstructed coordinate pair is obtained from its predecessor
by the raw destination-point formula — the longitude is the previous
longitude plus the `atan2` term, never normalized into `[-180, 180]` — and
on the concrete all-valid eastbound equator track
`[(0,0), (0,90), (0,180), (0,-90)]` the fourth anonymized longitude is
`270 > 180`, outside the valid range. -/
theorem C9_longitude_overflow :
    (∀ (pts : List TrackPoint) (i : ℕ) (c m : ℝ × ℝ),
      (anonCoords pts)[i]? = some c →
      ((segDistances pts).zip (segBearings pts))[i]? = some m →
      (anonCoords pts)[i + 1]? = some (destPoint c.1 c.2 (m.1 * 1000) m.2)) ∧
    (∀ p ∈ ([⟨0, 0, none⟩, ⟨0, 90, none⟩, ⟨0, 180, none⟩, ⟨0, -90, none⟩] :
        List TrackPoint), |p.latitude| ≤ 90 ∧ |p.longitude| ≤ 180) ∧
    ((anonymizePoints
        [⟨0, 0, none⟩, ⟨0, 90, none⟩, ⟨0, 180, none⟩, ⟨0, -90, none⟩])[3]?).map
      TrackPoint.longitude = some 270 ∧
    ¬((270 : ℝ) ≤ 180) := by
  refine ⟨?_, ?_, ?_, by norm_num⟩
  · intro pts i c m hc hm
    exact anonCoords_succ pts i c m hc hm
  · intro p hp
    fin_cases hp <;> constructor <;> norm_num
  · rw [anonP_east]
    rfl

/-- C10: a leg between two identical original points yields distance `0`
and bearing `atan2 0 0 = 0` without error, and the reconstructed point
`i + 1` coincides exactly (in latitude and longitude) with the
reconstructed point `i`. -/
theorem C10_zero_leg (pts : List TrackPoint) (i : ℕ) (p q : TrackPoint)
    (hp : pts[i]? = some p) (hq : pts[i + 1]? = some q)
    (hlat : p.latitude = q.latitude) (hlon : p.longitude = q.longitude) :
    (segDistances pts)[i]? = some 0 ∧
    (segBearings pts)[i]? = some 0 ∧
    ((anonymizePoints pts)[i + 1]?).map (fun r => (r.latitude, r.longitude)) =
      ((anonymizePoints pts)[i]?).map (fun r => (r.latitude, r.longitude)) := by
  have hd0 : (segDistances pts)[i]? = some 0 := by
    rw [segDistances_getElem? pts i p q hp hq, ← hlat, ← hlon,
      calculate_distance_self]
  have hb0 : (segBearings pts)[i]? = some 0 := by
    rw [segBearings_getElem? pts i p q hp hq, ← hlat, ← hlon, segBearing_self]
  refine ⟨hd0, hb0, ?_⟩
  have hi1 : i + 1 < pts.length := by
    obtain ⟨hh, _⟩ := List.getElem?_eq_some_iff.mp hq
    exact hh
  obtain ⟨a, ha⟩ := exists_getElem?_some (anonymizePoints pts) i (by
    rw [length_anonymizePoints]; omega)
  obtain ⟨b, hb⟩ := exists_getElem?_some (anonymizePoints pts) (i + 1) (by
    rw [length_anonymizePoints]; omega)
  have hpair := anon_leg pts i _ _ 0 0 ha hb hd0 hb0
  rw [ha, hb]
  simp only [Option.map_some']
  rw [hpair, show (0 : ℝ) * 1000 = 0 by ring,
    destPoint_zero _ _ (anon_lat_mem pts i _ ha)]

/-- C10 witness: a two-point track whose points coincide. -/
theorem C10_zero_leg_witness :
    (([⟨10, 20, none⟩, ⟨10, 20, some 5⟩] : List TrackPoint)[0]? =
      some ⟨10, 20, none⟩) ∧
    (([⟨10, 20, none⟩, ⟨10, 20, some 5⟩] : List TrackPoint)[1]? =
      some ⟨10, 20, some 5⟩) ∧
    ((segDistances [⟨10, 20, none⟩, ⟨10, 20, some 5⟩])[0]? = some 0 ∧
     (segBearings [⟨10, 20, none⟩, ⟨10, 20, some 5⟩])[0]? = some 0 ∧
     ((anonymizePoints [⟨10, 20, none⟩, ⟨10, 20, some 5⟩])[0 + 1]?).map
        (fun r => (r.latitude, r.longitude)) =
      ((anonymizePoints [⟨10, 20, none⟩, ⟨10, 20, some 5⟩])[0]?).map
        (fun r => (r.latitude, r.longitude))) :=
  ⟨rfl, rfl, C10_zero_leg _ 0 _ _ rfl rfl rfl rfl⟩

/-- C1 counterexample: on the valid track `[(0,0), (90,0), (0,90)]` the
second reconstructed point is the north pole, and the bearing of the second
anonymized leg is `π` while the original bearing is `π/2`: off by `π/2`,
far beyond any small angular tolerance (the per-leg distances are still
exact). -/
theorem C1_counterexample :
    (segBearings [⟨0, 0, none⟩, ⟨90, 0, none⟩, ⟨0, 90, none⟩])[1]? =
      some (π / 2) ∧
    (segBearings (anonymizePoints [⟨0, 0, none⟩, ⟨90, 0, none⟩, ⟨0, 90, none⟩]))[1]? =
      some π ∧
    |π - π / 2| > 1 / 1000000 := by
  refine ⟨?_, ?_, ?_⟩
  · rw [segB_pole]
    rfl
  · rw [anonP_pole, segB_anonPole]
    rfl
  · rw [abs_of_pos (by linarith [pi_pos] : (0 : ℝ) < π - π / 2)]
    have h3 := pi_gt_three
    linarith

/-- C1 witness: on the valid equator track `[(0,0), (0,90)]` the bearing
half of the amended statement applies with all hypotheses satisfied. -/
theorem C1_leg_fidelity_witness :
    (segBearings (anonymizePoints [⟨0, 0, none⟩, ⟨0, 90, none⟩]))[0]? =
      some (π / 2) :=
  (C1_leg_fidelity [⟨0, 0, none⟩, ⟨0, 90, none⟩] 0).2
    ⟨0, 0, none⟩ ⟨0, 90, some 0⟩ (6371 * (π / 2)) (π / 2)
    (by rw [anonP_equator]; rfl)
    (by rw [anonP_equator]; rfl)
    (by rw [segD_equator]; rfl)
    (by rw [segB_equator]; rfl)
    (by norm_num)
    (by positivity)
    (by nlinarith [pi_pos])

/-- C2 counterexample: from the north pole (latitude 90, a valid start
point) with bearing `π/2` and sub-antipodal distance `6371000 · π/2`, the
recomputed bearing is `π`, not `π/2` — the inverse relationship fails at
the poles. -/
theorem C2_counterexample :
    segBearing 90 0 (destPoint 90 0 (6371000 * (π / 2)) (π / 2)).1
        (destPoint 90 0 (6371000 * (π / 2)) (π / 2)).2 = π ∧
      π ≠ π / 2 := by
  have hdp : destPoint 90 0 (6371000 * (π / 2)) (π / 2) = (0, 0) :=
    destPoint_pole_east _ (by
      rw [div_eq_iff (by norm_num : (6371000 : ℝ) ≠ 0)]
      ring)
  constructor
  · rw [hdp]
    exact bear_900_000
  · intro h
    have := pi_pos
    linarith

/-- C2 witness: a start on the equator with an eastward bearing. -/
theorem C2_inverse_witness :
    (|(0 : ℝ)| < 90) ∧
    (calculate_distance 0 0 (destPoint 0 0 (6371000 * (π / 2)) (π / 2)).1
        (destPoint 0 0 (6371000 * (π / 2)) (π / 2)).2 * 1000 = 6371000 * (π / 2) ∧
      segBearing 0 0 (destPoint 0 0 (6371000 * (π / 2)) (π / 2)).1
        (destPoint 0 0 (6371000 * (π / 2)) (π / 2)).2 = π / 2) :=
  ⟨by norm_num,
    C2_inverse 0 0 (6371000 * (π / 2)) (π / 2) (by norm_num) (by positivity)
      (by linarith [pi_pos]) ⟨by linarith [pi_pos], by linarith [pi_pos]⟩⟩

/-- C3 witness: a two-point track with elevations 35 and absent. -/
theorem C3_elevation_witness :
    (1 ≤ 1) ∧
    (((anonymizePoints [⟨48, 2, some 35⟩, ⟨49, 3, none⟩])[1]?).map
        TrackPoint.elevation =
      (([⟨48, 2, some 35⟩, ⟨49, 3, none⟩] : List TrackPoint)[1]?).map
        (fun p => some (origEle p)) ∧
    ((anonymizePoints [⟨48, 2, some 35⟩, ⟨49, 3, none⟩])[0]?).map
        TrackPoint.elevation =
      (([⟨48, 2, some 35⟩, ⟨49, 3, none⟩] : List TrackPoint)[0]?).map
        TrackPoint.elevation) :=
  ⟨le_refl 1, C3_elevation [⟨48, 2, some 35⟩, ⟨49, 3, none⟩] 1 (le_refl 1)⟩

/-- C8 witness: two tracks; the second track's only point is untouched. -/
theorem C8_frame_witness :
    (¬(1 = 0 ∧ 0 = 0)) ∧
    (((⟨[⟨[⟨[⟨0, 0, none⟩]⟩]⟩, ⟨[⟨[⟨3, 4, some 5⟩]⟩]⟩]⟩ : Gpx).tracks[1]?).bind
        (fun t => t.segments[0]?)).bind (fun s => s.points[0]?) =
      (((⟨[⟨[⟨[⟨1, 2, none⟩]⟩]⟩, ⟨[⟨[⟨3, 4, some 5⟩]⟩]⟩]⟩ : Gpx).tracks[1]?).bind
        (fun t => t.segments[0]?)).bind (fun s => s.points[0]?) :=
  ⟨by decide,
    C8_frame ⟨[⟨[⟨[⟨1, 2, none⟩]⟩]⟩, ⟨[⟨[⟨3, 4, some 5⟩]⟩]⟩]⟩
      ⟨[⟨[⟨[⟨0, 0, none⟩]⟩]⟩, ⟨[⟨[⟨3, 4, some 5⟩]⟩]⟩]⟩ 0 0 rfl 1 0 0 (by decide)⟩
